import Mathlib

/-!
Verification of the numerical core of scripts/putty-cavity-design.js.

The program is embedded shallowly over ℚ: the JS numbers become exact
rationals, JS objects become structures, optional parameters become
Option, and the falsy-width default `cavityWidth || CAR.width` becomes
an explicit test against 0.  Every definition mirrors the corresponding
source function line by line.
-/

set_option maxHeartbeats 1000000

set_option maxRecDepth 8000

/-- Car specification record, mirroring the CAR constant object. -/
structure CarSpec where
  length : ℚ
  width : ℚ
  stockHeight : ℚ
  noseHeight : ℚ
  frontHeight : ℚ
  rearHeight : ℚ
  tailHeight : ℚ
  scoopDepth : ℚ
  frontAxle : ℚ
  rearAxle : ℚ
  rawWoodWeight : ℚ
  wheelAxleWeight : ℚ

/-- The CAR constant of the script (all decimal literals as exact rationals). -/
def CAR : CarSpec where
  length := 7
  width := 7/4
  stockHeight := 5/4
  noseHeight := 1/20
  frontHeight := 1/4
  rearHeight := 1/2
  tailHeight := 11/20
  scoopDepth := 0
  frontAxle := 7/4
  rearAxle := 6
  rawWoodWeight := 171/50
  wheelAxleWeight := 49/100

/-- PUTTY_DENSITY = 11.0. -/
def PUTTY_DENSITY : ℚ := 11

/-- STOCK_VOLUME = 7.0 * 1.75 * 1.25. -/
def STOCK_VOLUME : ℚ := 7 * (7/4) * (5/4)

/-- WOOD_DENSITY = CAR.rawWoodWeight / STOCK_VOLUME. -/
def WOOD_DENSITY : ℚ := CAR.rawWoodWeight / STOCK_VOLUME

/-- TARGET_WEIGHT = 5.0. -/
def TARGET_WEIGHT : ℚ := 5

/-- TARGET_COG = 5.0. -/
def TARGET_COG : ℚ := 5

/-- profileHeight(x): piecewise-linear height profile of the car body. -/
def profileHeight (x : ℚ) : ℚ :=
  if x ≤ 0 then CAR.noseHeight
  else if CAR.length ≤ x then CAR.tailHeight
  else if x ≤ CAR.frontAxle then
    CAR.noseHeight + x / CAR.frontAxle * (CAR.frontHeight - CAR.noseHeight)
  else if x ≤ CAR.rearAxle then
    CAR.frontHeight +
      (x - CAR.frontAxle) / (CAR.rearAxle - CAR.frontAxle) * (CAR.rearHeight - CAR.frontHeight)
  else
    CAR.rearHeight +
      (x - CAR.rearAxle) / (CAR.length - CAR.rearAxle) * (CAR.tailHeight - CAR.rearHeight)

/-- Interior sum of the Simpson loop: sum over i = 1..m of
(i % 2 == 0 ? 2 : 4) * fn(a + i*h), mirroring the for-loop in integrate. -/
def loopSum (fn : ℚ → ℚ) (a h : ℚ) : ℕ → ℚ
  | 0 => 0
  | m + 1 =>
    loopSum fn a h m + (if (m + 1) % 2 = 0 then 2 else 4) * fn (a + ((m + 1 : ℕ) : ℚ) * h)

/-- integrate(fn, a, b, n = 1000): composite Simpson quadrature of the script.
Returns 0 on a degenerate interval (a ≥ b); forces n to the next even value. -/
def integrate (fn : ℚ → ℚ) (a b : ℚ) (n : ℕ := 1000) : ℚ :=
  if b ≤ a then 0
  else
    let n2 := if n % 2 ≠ 0 then n + 1 else n
    let h := (b - a) / (n2 : ℚ)
    (fn a + fn b + loopSum fn a h (n2 - 1)) * h / 3

/-- Result record of the cavity analyzers (the label string is omitted). -/
structure Cavity where
  xStart : ℚ
  xEnd : ℚ
  cavityWidth : ℚ
  cavVol : ℚ
  cavCogX : ℚ
  woodRemoved : ℚ
  puttyWeight : ℚ
  netChange : ℚ

/-- analyzeThroughCut(xStart, xEnd, cavityWidth): the JS falsy default
`cavityWidth || CAR.width` is modelled by the test against 0. -/
def analyzeThroughCut (xStart xEnd cavityWidth : ℚ) : Cavity :=
  let w := if cavityWidth = 0 then CAR.width else cavityWidth
  let cavVol := integrate (fun x => profileHeight x * w) xStart xEnd
  let cavMoment := integrate (fun x => x * profileHeight x * w) xStart xEnd
  let cavCogX := if cavVol > 0 then cavMoment / cavVol else 0
  let woodRemoved := cavVol * WOOD_DENSITY
  let puttyWeight := cavVol * PUTTY_DENSITY
  let netChange := puttyWeight - woodRemoved
  { xStart := xStart, xEnd := xEnd, cavityWidth := w, cavVol := cavVol, cavCogX := cavCogX,
    woodRemoved := woodRemoved, puttyWeight := puttyWeight, netChange := netChange }

/-- analyzeBottomPocket(xStart, xEnd, depth, cavityWidth): per-position
contribution min(depth, profileHeight(x)) * w. -/
def analyzeBottomPocket (xStart xEnd depth cavityWidth : ℚ) : Cavity :=
  let w := if cavityWidth = 0 then CAR.width else cavityWidth
  let cavVol := integrate (fun x => min depth (profileHeight x) * w) xStart xEnd
  let cavMoment := integrate (fun x => x * (min depth (profileHeight x)) * w) xStart xEnd
  let cavCogX := if cavVol > 0 then cavMoment / cavVol else 0
  let woodRemoved := cavVol * WOOD_DENSITY
  let puttyWeight := cavVol * PUTTY_DENSITY
  let netChange := puttyWeight - woodRemoved
  { xStart := xStart, xEnd := xEnd, cavityWidth := w, cavVol := cavVol, cavCogX := cavCogX,
    woodRemoved := woodRemoved, puttyWeight := puttyWeight, netChange := netChange }

/-- Result record of computeCarWithCavity. -/
structure CarResult where
  woodWeight : ℚ
  puttyWeight : ℚ
  wheelWeight : ℚ
  totalWeight : ℚ
  cogX : ℚ

/-- computeCarWithCavity(baseProfWeight, cavities, puttyFillFraction): the JS
optional third argument is an Option; undefined (none) defaults to 1.0. -/
def computeCarWithCavity (baseProfWeight : ℚ) (cavities : List Cavity)
    (puttyFillFraction : Option ℚ) : CarResult :=
  let fill := puttyFillFraction.getD 1
  let totalWoodRemoved := cavities.foldl (fun s c => s + c.woodRemoved) 0
  let totalPuttyWeight := cavities.foldl (fun s c => s + c.cavVol * PUTTY_DENSITY * fill) 0
  let woodWeight := baseProfWeight - totalWoodRemoved
  let puttyWeight := totalPuttyWeight
  let wheelWeight := CAR.wheelAxleWeight
  let totalWeight := woodWeight + puttyWeight + wheelWeight
  let baseWoodMoment :=
    integrate (fun x => x * profileHeight x * CAR.width * WOOD_DENSITY) 0 CAR.length
  let cavityWoodMoment := cavities.foldl
    (fun s c =>
      s + integrate (fun x => x * profileHeight x * c.cavityWidth * WOOD_DENSITY) c.xStart c.xEnd)
    0
  let remainingWoodMoment := baseWoodMoment - cavityWoodMoment
  let puttyMoment := cavities.foldl (fun s c => s + c.cavCogX * c.cavVol * PUTTY_DENSITY * fill) 0
  let perAxleWeight := wheelWeight / 2
  let wheelMoment := perAxleWeight * CAR.frontAxle + perAxleWeight * CAR.rearAxle
  let totalMoment := remainingWoodMoment + puttyMoment + wheelMoment
  { woodWeight := woodWeight, puttyWeight := puttyWeight, wheelWeight := wheelWeight,
    totalWeight := totalWeight, cogX := totalMoment / totalWeight }

/-- Total wood removed by a cavity list, as summed in solveForTargetWeight. -/
def sumWoodRemoved (cavities : List Cavity) : ℚ :=
  cavities.foldl (fun s c => s + c.woodRemoved) 0

/-- Total putty capacity of a cavity list, as summed in solveForTargetWeight. -/
def sumMaxPutty (cavities : List Cavity) : ℚ :=
  cavities.foldl (fun s c => s + c.cavVol * PUTTY_DENSITY) 0

/-- solveForTargetWeight(baseProfWeight, cavities): the shared fill fraction
reaching TARGET_WEIGHT.  Note that the division is unguarded in the source. -/
def solveForTargetWeight (baseProfWeight : ℚ) (cavities : List Cavity) : ℚ :=
  let totalWoodRemoved := sumWoodRemoved cavities
  let totalMaxPutty := sumMaxPutty cavities
  let woodWeight := baseProfWeight - totalWoodRemoved
  let wheelWeight := CAR.wheelAxleWeight
  let neededPutty := TARGET_WEIGHT - woodWeight - wheelWeight
  neededPutty / totalMaxPutty

/-- Skip test of the single-cavity grid search in designF:
`if (fillFrac < 0 || fillFrac > 1.0) continue`. -/
def designF_singleSkip (fillFrac : ℚ) : Bool :=
  decide (fillFrac < 0) || decide (fillFrac > 1)

/-- Skip test of the two-cavity grid search in designF:
`if (fillFrac < 0.01 || fillFrac > 1.0) continue`. -/
def designF_twoSkip (fillFrac : ℚ) : Bool :=
  decide (fillFrac < 1/100) || decide (fillFrac > 1)

/-- A two-cavity configuration of designG (the name string is omitted). -/
structure GConfig where
  fStart : ℚ
  fEnd : ℚ
  rStart : ℚ
  rEnd : ℚ

/-- Front cavity of a designG configuration. -/
def gFrontCav (cfg : GConfig) : Cavity := analyzeThroughCut cfg.fStart cfg.fEnd CAR.width

/-- Rear cavity of a designG configuration. -/
def gRearCav (cfg : GConfig) : Cavity := analyzeThroughCut cfg.rStart cfg.rEnd CAR.width

/-- P1 = fCav.cavVol * PUTTY_DENSITY. -/
def gP1 (cfg : GConfig) : ℚ := (gFrontCav cfg).cavVol * PUTTY_DENSITY

/-- P2 = rCav.cavVol * PUTTY_DENSITY. -/
def gP2 (cfg : GConfig) : ℚ := (gRearCav cfg).cavVol * PUTTY_DENSITY

/-- M1 = fCav.cavCogX * P1. -/
def gM1 (cfg : GConfig) : ℚ := (gFrontCav cfg).cavCogX * gP1 cfg

/-- M2 = rCav.cavCogX * P2. -/
def gM2 (cfg : GConfig) : ℚ := (gRearCav cfg).cavCogX * gP2 cfg

/-- woodWeight = baseProfWeight - fCav.woodRemoved - rCav.woodRemoved. -/
def gWoodWeight (base : ℚ) (cfg : GConfig) : ℚ :=
  base - (gFrontCav cfg).woodRemoved - (gRearCav cfg).woodRemoved

/-- RHS1 = TARGET_WEIGHT - woodWeight - wheelWeight. -/
def gRHS1 (base : ℚ) (cfg : GConfig) : ℚ :=
  TARGET_WEIGHT - gWoodWeight base cfg - CAR.wheelAxleWeight

/-- remainingWoodMoment = baseWoodMoment - fCavWoodMoment - rCavWoodMoment. -/
def gRemainingWoodMoment (cfg : GConfig) : ℚ :=
  integrate (fun x => x * profileHeight x * CAR.width * WOOD_DENSITY) 0 CAR.length -
    integrate (fun x => x * profileHeight x * CAR.width * WOOD_DENSITY) cfg.fStart cfg.fEnd -
    integrate (fun x => x * profileHeight x * CAR.width * WOOD_DENSITY) cfg.rStart cfg.rEnd

/-- wheelMoment = perAxleWeight * frontAxle + perAxleWeight * rearAxle. -/
def gWheelMoment : ℚ :=
  CAR.wheelAxleWeight / 2 * CAR.frontAxle + CAR.wheelAxleWeight / 2 * CAR.rearAxle

/-- RHS2 = TARGET_COG * TARGET_WEIGHT - remainingWoodMoment - wheelMoment. -/
def gRHS2 (cfg : GConfig) : ℚ :=
  TARGET_COG * TARGET_WEIGHT - gRemainingWoodMoment cfg - gWheelMoment

/-- det = P1 * M2 - P2 * M1. -/
def designGDet (cfg : GConfig) : ℚ := gP1 cfg * gM2 cfg - gP2 cfg * gM1 cfg

/-- f1 = (RHS1 * M2 - RHS2 * P2) / det. -/
def gf1 (base : ℚ) (cfg : GConfig) : ℚ :=
  (gRHS1 base cfg * gM2 cfg - gRHS2 cfg * gP2 cfg) / designGDet cfg

/-- f2 = (RHS2 * P1 - RHS1 * M1) / det. -/
def gf2 (base : ℚ) (cfg : GConfig) : ℚ :=
  (gRHS2 cfg * gP1 cfg - gRHS1 base cfg * gM1 cfg) / designGDet cfg

/-- The designG loop body: a configuration whose determinant is below the
1e-10 threshold is skipped (continue); otherwise Cramer fractions are built. -/
def designGSolve (base : ℚ) (cfg : GConfig) : Option (ℚ × ℚ) :=
  if |designGDet cfg| < 1e-10 then none else some (gf1 base cfg, gf2 base cfg)

/-- Verification sum of designG: totalWt = woodWeight + f1*P1 + f2*P2 + wheelWeight. -/
def gTotalWt (base : ℚ) (cfg : GConfig) (f1 f2 : ℚ) : ℚ :=
  gWoodWeight base cfg + f1 * gP1 cfg + f2 * gP2 cfg + CAR.wheelAxleWeight

/-- Verification moment of designG:
totalMoment = remainingWoodMoment + f1*M1 + f2*M2 + wheelMoment. -/
def gTotalMoment (cfg : GConfig) (f1 f2 : ℚ) : ℚ :=
  gRemainingWoodMoment cfg + f1 * gM1 cfg + f2 * gM2 cfg + gWheelMoment

/-- actualCog = totalMoment / totalWt. -/
def gActualCog (base : ℚ) (cfg : GConfig) (f1 f2 : ℚ) : ℚ :=
  gTotalMoment cfg f1 f2 / gTotalWt base cfg f1 f2

/-- Volume of a through cavity from xS to b, as integrated by designH
(integrate of profileHeight(x) * CAR.width with the default 1000 panels). -/
def cavVolTo (xS b : ℚ) : ℚ := integrate (fun x => profileHeight x * CAR.width) xS b

/-- The 100-iteration bisection of designH: lo = mid when the integrated
volume up to mid is still below neededVol, otherwise hi = mid. -/
def bisectLoop (xS neededVol : ℚ) : ℕ → ℚ → ℚ → ℚ × ℚ
  | 0, lo, hi => (lo, hi)
  | k + 1, lo, hi =>
    if cavVolTo xS ((lo + hi) / 2) < neededVol then
      bisectLoop xS neededVol k ((lo + hi) / 2) hi
    else
      bisectLoop xS neededVol k lo ((lo + hi) / 2)

/-- End boundary produced by designH for a fixed start xS: bisect on
[xS + 0.001, region.end] for 100 iterations, then xE = (lo + hi) / 2. -/
def designH_endpoint (xS regionEnd neededVol : ℚ) : ℚ :=
  ((bisectLoop xS neededVol 100 (xS + 1/1000) regionEnd).1 +
    (bisectLoop xS neededVol 100 (xS + 1/1000) regionEnd).2) / 2

lemma integrate_of_degenerate (fn : ℚ → ℚ) (a b : ℚ) (n : ℕ) (hba : b ≤ a) :
    integrate fn a b n = 0 := by
  simp [integrate, hba]

lemma loopSum_const (c a h : ℚ) : ∀ m : ℕ,
    loopSum (fun _ => c) a h m = ((3 * m + m % 2 : ℕ) : ℚ) * c := by
  intro m
  induction m with
  | zero => simp [loopSum]
  | succ m ih =>
    rcases Nat.even_or_odd m with he | ho
    · have h1 : m % 2 = 0 := Nat.even_iff.mp he
      have h2 : (m + 1) % 2 = 1 := by omega
      rw [loopSum, ih, h2, h1]
      norm_num
      ring
    · have h1 : m % 2 = 1 := Nat.odd_iff.mp ho
      have h2 : (m + 1) % 2 = 0 := by omega
      rw [loopSum, ih, h2, h1]
      norm_num
      ring

lemma integrate_const (c a b : ℚ) (n : ℕ) (hab : a < b) (hn : 1 ≤ n) :
    integrate (fun _ => c) a b n = c * (b - a) := by
  have hba : ¬ b ≤ a := not_le.mpr hab
  simp only [integrate, if_neg hba]
  set N : ℕ := if n % 2 ≠ 0 then n + 1 else n with hN
  have h2 : 2 ≤ N := by
    rw [hN]; by_cases h : n % 2 ≠ 0 <;> simp [h] <;> omega
  have heven : N % 2 = 0 := by
    rw [hN]; by_cases h : n % 2 ≠ 0 <;> simp [h] <;> omega
  obtain ⟨m, hm⟩ : ∃ m, N = m + 1 := ⟨N - 1, by omega⟩
  have hmodd : m % 2 = 1 := by omega
  rw [loopSum_const, hm]
  simp only [Nat.add_sub_cancel]
  rw [hmodd]
  have hne : ((m : ℚ) + 1) ≠ 0 := by positivity
  push_cast
  field_simp
  ring

lemma loopSum_le (f g : ℚ → ℚ) (a h : ℚ) (m : ℕ)
    (hfg : ∀ i : ℕ, 1 ≤ i → i ≤ m → f (a + (i : ℚ) * h) ≤ g (a + (i : ℚ) * h)) :
    loopSum f a h m ≤ loopSum g a h m := by
  induction m with
  | zero => simp [loopSum]
  | succ m ih =>
    rw [loopSum, loopSum]
    have hw : (0 : ℚ) ≤ (if (m + 1) % 2 = 0 then 2 else 4) := by
      split <;> norm_num
    have hterm : f (a + ((m + 1 : ℕ) : ℚ) * h) ≤ g (a + ((m + 1 : ℕ) : ℚ) * h) :=
      hfg (m + 1) (by omega) le_rfl
    have hih : loopSum f a h m ≤ loopSum g a h m :=
      ih (fun i h1 h2 => hfg i h1 (by omega))
    have := mul_le_mul_of_nonneg_left hterm hw
    linarith

lemma loopSum_mul (k : ℚ) (f : ℚ → ℚ) (a h : ℚ) (m : ℕ) :
    loopSum (fun x => k * f x) a h m = k * loopSum f a h m := by
  induction m with
  | zero => simp [loopSum]
  | succ m ih => rw [loopSum, loopSum, ih]; ring

lemma sample_mem (a b h : ℚ) (N i : ℕ) (hab : a < b) (hh : h = (b - a) / (N : ℚ))
    (hiN : i ≤ N) : a ≤ a + (i : ℚ) * h ∧ a + (i : ℚ) * h ≤ b := by
  rcases Nat.eq_zero_or_pos N with hN | hN
  · subst hN
    simp only [Nat.cast_zero, div_zero] at hh
    subst hh
    constructor <;> simp [le_of_lt hab]
  · have hNq : (0 : ℚ) < (N : ℚ) := by exact_mod_cast hN
    have hh0 : 0 ≤ h := by
      rw [hh]
      apply div_nonneg (by linarith) (Nat.cast_nonneg N)
    constructor
    · nlinarith [mul_nonneg (Nat.cast_nonneg (α := ℚ) i) hh0]
    · have hiq : (i : ℚ) ≤ (N : ℚ) := by exact_mod_cast hiN
      have : (i : ℚ) * h ≤ (N : ℚ) * h := mul_le_mul_of_nonneg_right hiq hh0
      have hNh : (N : ℚ) * h = b - a := by
        rw [hh]
        field_simp
      linarith

lemma integrate_mono (f g : ℚ → ℚ) (a b : ℚ) (n : ℕ)
    (hfg : ∀ x, a ≤ x → x ≤ b → f x ≤ g x) :
    integrate f a b n ≤ integrate g a b n := by
  by_cases hba : b ≤ a
  · simp [integrate, hba]
  · have hab : a < b := not_le.mp hba
    simp only [integrate, if_neg hba]
    set N : ℕ := if n % 2 ≠ 0 then n + 1 else n with hN
    set h : ℚ := (b - a) / (N : ℚ) with hh
    have hh0 : 0 ≤ h := by
      rw [hh]
      apply div_nonneg (by linarith) (Nat.cast_nonneg N)
    have hsum : loopSum f a h (N - 1) ≤ loopSum g a h (N - 1) := by
      apply loopSum_le
      intro i h1 h2
      obtain ⟨hmem1, hmem2⟩ := sample_mem a b h N i hab hh (by omega)
      exact hfg _ hmem1 hmem2
    have hfa : f a ≤ g a := hfg a le_rfl (le_of_lt hab)
    have hfb : f b ≤ g b := hfg b (le_of_lt hab) le_rfl
    have hS : f a + f b + loopSum f a h (N - 1) ≤ g a + g b + loopSum g a h (N - 1) := by
      linarith
    have := mul_le_mul_of_nonneg_right hS hh0
    linarith

lemma integrate_congr_on (f g : ℚ → ℚ) (a b : ℚ) (n : ℕ)
    (hfg : ∀ x, a ≤ x → x ≤ b → f x = g x) :
    integrate f a b n = integrate g a b n := by
  apply le_antisymm
  · exact integrate_mono f g a b n (fun x h1 h2 => le_of_eq (hfg x h1 h2))
  · exact integrate_mono g f a b n (fun x h1 h2 => ge_of_eq (hfg x h1 h2))

lemma integrate_mul (k : ℚ) (f : ℚ → ℚ) (a b : ℚ) (n : ℕ) :
    integrate (fun x => k * f x) a b n = k * integrate f a b n := by
  by_cases hba : b ≤ a
  · simp [integrate, hba]
  · simp only [integrate, if_neg hba, loopSum_mul]
    ring

lemma const_le_integrate (f : ℚ → ℚ) (a b c : ℚ) (n : ℕ) (hab : a ≤ b) (hn : 1 ≤ n)
    (hf : ∀ x, a ≤ x → x ≤ b → c ≤ f x) :
    c * (b - a) ≤ integrate f a b n := by
  rcases eq_or_lt_of_le hab with heq | hlt
  · subst heq
    simp [integrate_of_degenerate f a a n le_rfl]
  · calc c * (b - a) = integrate (fun _ => c) a b n := (integrate_const c a b n hlt hn).symm
    _ ≤ integrate f a b n := integrate_mono _ f a b n hf

lemma integrate_le_const (f : ℚ → ℚ) (a b c : ℚ) (n : ℕ) (hab : a ≤ b) (hn : 1 ≤ n)
    (hf : ∀ x, a ≤ x → x ≤ b → f x ≤ c) :
    integrate f a b n ≤ c * (b - a) := by
  rcases eq_or_lt_of_le hab with heq | hlt
  · subst heq
    simp [integrate_of_degenerate f a a n le_rfl]
  · calc integrate f a b n ≤ integrate (fun _ => c) a b n := integrate_mono f _ a b n hf
    _ = c * (b - a) := integrate_const c a b n hlt hn

/-- C9: on a constant integrand the composite Simpson rule of integrate is exact:
for every a < b, every constant c and every (positive) panel count n,
integrate (fun _ => c) a b n = c * (b - a). -/
theorem integrate_const_exact (c a b : ℚ) (n : ℕ) (hab : a < b) (hn : 1 ≤ n) :
    integrate (fun _ => c) a b n = c * (b - a) :=
  integrate_const c a b n hab hn

/-- Witness for C9 at c = 5, a = 0, b = 2, n = 4. -/
theorem integrate_const_exact_witness :
    (0 : ℚ) < 2 ∧ 1 ≤ 4 ∧ integrate (fun _ => (5 : ℚ)) 0 2 4 = 5 * (2 - 0) :=
  ⟨by norm_num, by norm_num, integrate_const_exact 5 0 2 4 (by norm_num) (by norm_num)⟩

lemma profileHeight_bounds (x : ℚ) : 1/20 ≤ profileHeight x ∧ profileHeight x ≤ 11/20 := by
  unfold profileHeight
  simp only [CAR]
  split_ifs with h1 h2 h3 h4 <;> push_neg at * <;> constructor <;> (ring_nf; linarith)

lemma profileHeight_mono_lip (x y : ℚ) (hxy : x ≤ y) :
    0 ≤ profileHeight y - profileHeight x ∧
      profileHeight y - profileHeight x ≤ (4/35) * (y - x) := by
  unfold profileHeight
  simp only [CAR]
  split_ifs with h1 h2 h3 h4 h5 h6 h7 h8 h9 h10 h11 h12 h13 h14 h15 h16 h17 h18 h19 <;>
    push_neg at * <;> constructor <;> (ring_nf; linarith)

lemma analyzeThroughCut_cavVol (s e w : ℚ) :
    (analyzeThroughCut s e w).cavVol =
      integrate (fun x => profileHeight x * (if w = 0 then CAR.width else w)) s e := rfl

lemma analyzeBottomPocket_cavVol (s e d w : ℚ) :
    (analyzeBottomPocket s e d w).cavVol =
      integrate (fun x => min d (profileHeight x) * (if w = 0 then CAR.width else w)) s e := rfl

/-- C4 amended part: a zero-length cavity (start ≥ end) yields zero volume,
centroid 0 (no division by the zero volume), zero wood removed, zero putty
capacity and zero net change, in both analyzers. -/
theorem degenerate_cavity_zero (s e d w : ℚ) (h : e ≤ s) :
    (analyzeThroughCut s e w).cavVol = 0 ∧ (analyzeThroughCut s e w).cavCogX = 0 ∧
    (analyzeThroughCut s e w).woodRemoved = 0 ∧ (analyzeThroughCut s e w).puttyWeight = 0 ∧
    (analyzeThroughCut s e w).netChange = 0 ∧
    (analyzeBottomPocket s e d w).cavVol = 0 ∧ (analyzeBottomPocket s e d w).cavCogX = 0 ∧
    (analyzeBottomPocket s e d w).woodRemoved = 0 ∧
    (analyzeBottomPocket s e d w).puttyWeight = 0 ∧
    (analyzeBottomPocket s e d w).netChange = 0 := by
  have h1 := integrate_of_degenerate
    (fun x => profileHeight x * (if w = 0 then CAR.width else w)) s e 1000 h
  have h2 := integrate_of_degenerate
    (fun x => min d (profileHeight x) * (if w = 0 then CAR.width else w)) s e 1000 h
  simp only [analyzeThroughCut, analyzeBottomPocket]
  rw [h1, h2]
  norm_num

/-- Witness for the C4 amended theorem at the zero-length cavity [3, 3]. -/
theorem degenerate_cavity_zero_witness :
    (3 : ℚ) ≤ 3 ∧ (analyzeThroughCut 3 3 (7/4)).cavVol = 0 ∧
      (analyzeThroughCut 3 3 (7/4)).cavCogX = 0 ∧
      (analyzeBottomPocket 3 3 (1/2) (7/4)).cavVol = 0 ∧
      (analyzeBottomPocket 3 3 (1/2) (7/4)).cavCogX = 0 := by
  have h := degenerate_cavity_zero 3 3 (1/2) (7/4) le_rfl
  exact ⟨le_rfl, h.1, h.2.1, h.2.2.2.2.2.1, h.2.2.2.2.2.2.1⟩

/-- C4 counterexample: a zero-width cavity does NOT get zero volume.  The JS
default `cavityWidth || CAR.width` treats width 0 as absent, so the analyzer
uses the full car width and the volume of the span [2, 3] is positive. -/
theorem zero_width_cavity_not_zero : (analyzeThroughCut 2 3 0).cavVol ≠ 0 := by
  rw [analyzeThroughCut_cavVol]
  have hlb : (7/80 : ℚ) * (3 - 2) ≤
      integrate (fun x => profileHeight x * (if (0 : ℚ) = 0 then CAR.width else 0)) 2 3 := by
    apply const_le_integrate _ _ _ _ _ (by norm_num) (by norm_num)
    intro x h1 h2
    have hb := (profileHeight_bounds x).1
    simp only [if_pos rfl]
    show (7/80 : ℚ) ≤ profileHeight x * CAR.width
    have : CAR.width = 7/4 := rfl
    rw [this]
    nlinarith
  intro hzero
  rw [hzero] at hlb
  norm_num at hlb

/-- C8: for any span, nonnegative width and declared depth, the bottom-pocket
volume never exceeds the through-cut volume for the same span and width
(pointwise the pocket contribution clamps depth to the profile height), and
the two volumes coincide whenever the declared depth dominates the profile
height everywhere on the span. -/
theorem pocket_le_throughCut (s e d w : ℚ) (hw : 0 ≤ w) :
    (analyzeBottomPocket s e d w).cavVol ≤ (analyzeThroughCut s e w).cavVol ∧
      ((∀ x, s ≤ x → x ≤ e → profileHeight x ≤ d) →
        (analyzeBottomPocket s e d w).cavVol = (analyzeThroughCut s e w).cavVol) := by
  rw [analyzeBottomPocket_cavVol, analyzeThroughCut_cavVol]
  have hw2 : 0 ≤ (if w = 0 then CAR.width else w) := by
    split
    · norm_num [CAR]
    · exact hw
  constructor
  · apply integrate_mono
    intro x h1 h2
    exact mul_le_mul_of_nonneg_right (min_le_right d (profileHeight x)) hw2
  · intro hd
    apply integrate_congr_on
    intro x h1 h2
    rw [min_eq_right (hd x h1 h2)]

/-- Witness for C8 on the span [2, 3] with depth 10 (above the whole profile)
and full width: the two volumes agree. -/
theorem pocket_le_throughCut_witness :
    (0 : ℚ) ≤ 7/4 ∧
      (analyzeBottomPocket 2 3 10 (7/4)).cavVol ≤ (analyzeThroughCut 2 3 (7/4)).cavVol ∧
      (analyzeBottomPocket 2 3 10 (7/4)).cavVol = (analyzeThroughCut 2 3 (7/4)).cavVol := by
  have h := pocket_le_throughCut 2 3 10 (7/4) (by norm_num)
  refine ⟨by norm_num, h.1, h.2 ?_⟩
  intro x h1 h2
  have hb := (profileHeight_bounds x).2
  linarith

lemma foldl_add_eq_sum (g : Cavity → ℚ) (l : List Cavity) :
    ∀ init : ℚ, l.foldl (fun s c => s + g c) init = init + (l.map g).sum := by
  induction l with
  | nil => intro init; simp
  | cons c t ih =>
    intro init
    simp only [List.foldl_cons, List.map_cons, List.sum_cons]
    rw [ih]
    ring

lemma sum_map_mul_const (g : Cavity → ℚ) (k : ℚ) (l : List Cavity) :
    (l.map (fun c => g c * k)).sum = (l.map g).sum * k := by
  induction l with
  | nil => simp
  | cons c t ih => simp only [List.map_cons, List.sum_cons, ih]; ring

/-- C10: calling computeCarWithCavity with the fill-fraction argument omitted
(undefined) is the same as calling it with fill fraction 1.0. -/
theorem computeCarWithCavity_default_fill (baseProfWeight : ℚ) (cavities : List Cavity) :
    computeCarWithCavity baseProfWeight cavities none =
      computeCarWithCavity baseProfWeight cavities (some 1) := rfl

/-- C3: whenever the total putty capacity of the cavity list is positive,
feeding the fraction returned by solveForTargetWeight back into
computeCarWithCavity reproduces TARGET_WEIGHT (exactly, hence within 1e-9). -/
theorem solve_roundtrip_weight (baseProfWeight : ℚ) (cavities : List Cavity)
    (hcap : 0 < sumMaxPutty cavities) :
    |(computeCarWithCavity baseProfWeight cavities
        (some (solveForTargetWeight baseProfWeight cavities))).totalWeight - TARGET_WEIGHT| ≤
      1e-9 := by
  have hput : ∀ fill : ℚ,
      cavities.foldl (fun s c => s + c.cavVol * PUTTY_DENSITY * fill) 0 =
        sumMaxPutty cavities * fill := by
    intro fill
    rw [foldl_add_eq_sum]
    have : (fun c : Cavity => c.cavVol * PUTTY_DENSITY * fill) =
        (fun c : Cavity => (fun c : Cavity => c.cavVol * PUTTY_DENSITY) c * fill) := rfl
    rw [this, sum_map_mul_const, sumMaxPutty, foldl_add_eq_sum]
    ring
  have hwood : cavities.foldl (fun s c => s + c.woodRemoved) 0 = sumWoodRemoved cavities := rfl
  have htw : (computeCarWithCavity baseProfWeight cavities
      (some (solveForTargetWeight baseProfWeight cavities))).totalWeight =
      baseProfWeight - sumWoodRemoved cavities +
        sumMaxPutty cavities * solveForTargetWeight baseProfWeight cavities +
        CAR.wheelAxleWeight := by
    simp only [computeCarWithCavity, Option.getD_some]
    rw [hput, hwood]
  rw [htw, solveForTargetWeight]
  have hne : sumMaxPutty cavities ≠ 0 := ne_of_gt hcap
  field_simp
  ring_nf
  norm_num

/-- Witness for C3 on a synthetic one-cavity list of unit volume. -/
theorem solve_roundtrip_weight_witness :
    0 < sumMaxPutty [⟨2, 3, 7/4, 1, 5/2, 1/5, 11, 54/5⟩] ∧
      |(computeCarWithCavity (3 : ℚ) [⟨2, 3, 7/4, 1, 5/2, 1/5, 11, 54/5⟩]
          (some (solveForTargetWeight 3 [⟨2, 3, 7/4, 1, 5/2, 1/5, 11, 54/5⟩]))).totalWeight -
        TARGET_WEIGHT| ≤ 1e-9 := by
  have hcap : 0 < sumMaxPutty [⟨2, 3, 7/4, 1, 5/2, 1/5, 11, 54/5⟩] := by
    norm_num [sumMaxPutty, PUTTY_DENSITY]
  exact ⟨hcap, solve_roundtrip_weight 3 _ hcap⟩

/-- C5: solveForTargetWeight has no guard on a zero total putty capacity: on
the empty cavity list (capacity 0) it still forms the quotient by the zero
capacity.  In JS this is an unchecked division by zero producing
Infinity/NaN, not the explicit infeasible result the spec requires. -/
theorem solveForTargetWeight_unguarded_div (baseProfWeight : ℚ) :
    sumMaxPutty [] = 0 ∧
      solveForTargetWeight baseProfWeight [] =
        (TARGET_WEIGHT - baseProfWeight - CAR.wheelAxleWeight) / sumMaxPutty [] := by
  constructor
  · rfl
  · simp only [solveForTargetWeight, sumWoodRemoved, sumMaxPutty, List.foldl_nil]
    ring_nf

/-- C6 counterexample: the shared fraction 1/200 lies inside [0, 1] and passes
the single-cavity filter, yet the two-cavity search rejects it — the two
searches do not apply the same feasibility filter, and rejection is not
equivalent to lying outside [0, 1]. -/
theorem designF_filters_differ :
    designF_twoSkip (1/200) = true ∧ designF_singleSkip (1/200) = false ∧
      (0 : ℚ) ≤ 1/200 ∧ (1/200 : ℚ) ≤ 1 := by
  refine ⟨?_, ?_, by norm_num, by norm_num⟩ <;>
    simp [designF_twoSkip, designF_singleSkip] <;> norm_num

/-- C6 amended: the one-cavity search rejects a candidate iff its shared fill
fraction is below 0 or above 1, while the two-cavity search uses a strictly
tighter lower bound, rejecting iff the fraction is below 0.01 or above 1. -/
theorem designF_filters_spec (f : ℚ) :
    (designF_singleSkip f = true ↔ (f < 0 ∨ 1 < f)) ∧
      (designF_twoSkip f = true ↔ (f < 1/100 ∨ 1 < f)) := by
  constructor <;> simp [designF_singleSkip, designF_twoSkip]

lemma analyzeThroughCut_fullwidth_cavVol (a b : ℚ) :
    (analyzeThroughCut a b CAR.width).cavVol =
      integrate (fun x => profileHeight x * CAR.width) a b := by
  rw [analyzeThroughCut_cavVol]
  simp only [ite_self]

lemma analyzeThroughCut_fullwidth_cavCogX (a b : ℚ) :
    (analyzeThroughCut a b CAR.width).cavCogX =
      if integrate (fun x => profileHeight x * CAR.width) a b > 0 then
        integrate (fun x => x * profileHeight x * CAR.width) a b /
          integrate (fun x => profileHeight x * CAR.width) a b
      else 0 := by
  simp only [analyzeThroughCut, ite_self]

lemma fullwidth_integrand_lb (x : ℚ) : (7/80 : ℚ) ≤ profileHeight x * CAR.width := by
  have hb := (profileHeight_bounds x).1
  have hw : CAR.width = 7/4 := rfl
  rw [hw]
  nlinarith

lemma fullwidth_integrand_ub (x : ℚ) : profileHeight x * CAR.width ≤ 77/80 := by
  have hb := (profileHeight_bounds x).2
  have hw : CAR.width = 7/4 := rfl
  rw [hw]
  nlinarith

lemma throughCut_vol_lb (a b : ℚ) (hab : a ≤ b) :
    (7/80) * (b - a) ≤ (analyzeThroughCut a b CAR.width).cavVol := by
  rw [analyzeThroughCut_fullwidth_cavVol]
  exact const_le_integrate _ a b _ 1000 hab (by norm_num)
    (fun x h1 h2 => fullwidth_integrand_lb x)

lemma throughCut_vol_pos (a b : ℚ) (hab : a < b) :
    0 < (analyzeThroughCut a b CAR.width).cavVol := by
  have h := throughCut_vol_lb a b (le_of_lt hab)
  nlinarith

lemma throughCut_cog_mem (a b : ℚ) (hab : a < b) :
    a ≤ (analyzeThroughCut a b CAR.width).cavCogX ∧
      (analyzeThroughCut a b CAR.width).cavCogX ≤ b := by
  have hvol : 0 < (analyzeThroughCut a b CAR.width).cavVol := throughCut_vol_pos a b hab
  rw [analyzeThroughCut_fullwidth_cavVol] at hvol
  rw [analyzeThroughCut_fullwidth_cavCogX, if_pos hvol]
  have hup : integrate (fun x => x * profileHeight x * CAR.width) a b ≤
      b * integrate (fun x => profileHeight x * CAR.width) a b := by
    rw [← integrate_mul]
    apply integrate_mono
    intro x h1 h2
    have hpos : 0 ≤ profileHeight x * CAR.width := by
      have := fullwidth_integrand_lb x
      linarith
    calc x * profileHeight x * CAR.width = x * (profileHeight x * CAR.width) := by ring
    _ ≤ b * (profileHeight x * CAR.width) := mul_le_mul_of_nonneg_right h2 hpos
  have hlo : a * integrate (fun x => profileHeight x * CAR.width) a b ≤
      integrate (fun x => x * profileHeight x * CAR.width) a b := by
    rw [← integrate_mul]
    apply integrate_mono
    intro x h1 h2
    have hpos : 0 ≤ profileHeight x * CAR.width := by
      have := fullwidth_integrand_lb x
      linarith
    calc a * (profileHeight x * CAR.width) ≤ x * (profileHeight x * CAR.width) :=
      mul_le_mul_of_nonneg_right h1 hpos
    _ = x * profileHeight x * CAR.width := by ring
  constructor
  · rw [le_div_iff₀ hvol]
    linarith
  · rw [div_le_iff₀ hvol]
    linarith

lemma designGDet_factor (cfg : GConfig) :
    designGDet cfg =
      gP1 cfg * gP2 cfg * ((gRearCav cfg).cavCogX - (gFrontCav cfg).cavCogX) := by
  unfold designGDet gM1 gM2
  ring

/-- C1: whenever |det| clears the 1e-10 singularity threshold, designG does
not skip the configuration, and substituting the Cramer fractions f1, f2 back
into the mass and moment sums reproduces TARGET_WEIGHT and TARGET_COG exactly,
hence within 1e-9. -/
theorem designG_differential_fill (base : ℚ) (cfg : GConfig)
    (hdet : 1e-10 ≤ |designGDet cfg|) :
    designGSolve base cfg = some (gf1 base cfg, gf2 base cfg) ∧
      |gTotalWt base cfg (gf1 base cfg) (gf2 base cfg) - TARGET_WEIGHT| ≤ 1e-9 ∧
      |gActualCog base cfg (gf1 base cfg) (gf2 base cfg) - TARGET_COG| ≤ 1e-9 := by
  have hD : designGDet cfg ≠ 0 := by
    intro h0
    rw [h0] at hdet
    norm_num at hdet
  have hsolve : designGSolve base cfg = some (gf1 base cfg, gf2 base cfg) := by
    rw [designGSolve, if_neg (not_lt.mpr hdet)]
  have h1 : gf1 base cfg * gP1 cfg + gf2 base cfg * gP2 cfg = gRHS1 base cfg := by
    rw [gf1, gf2]
    rw [div_mul_eq_mul_div, div_mul_eq_mul_div, div_add_div_same, div_eq_iff hD]
    rw [designGDet]
    ring
  have h2 : gf1 base cfg * gM1 cfg + gf2 base cfg * gM2 cfg = gRHS2 cfg := by
    rw [gf1, gf2]
    rw [div_mul_eq_mul_div, div_mul_eq_mul_div, div_add_div_same, div_eq_iff hD]
    rw [designGDet]
    ring
  have hwt : gTotalWt base cfg (gf1 base cfg) (gf2 base cfg) = TARGET_WEIGHT := by
    rw [gTotalWt]
    have hr : gRHS1 base cfg = TARGET_WEIGHT - gWoodWeight base cfg - CAR.wheelAxleWeight := rfl
    linarith [h1]
  have hmom : gTotalMoment cfg (gf1 base cfg) (gf2 base cfg) = TARGET_COG * TARGET_WEIGHT := by
    rw [gTotalMoment]
    have hr : gRHS2 cfg = TARGET_COG * TARGET_WEIGHT - gRemainingWoodMoment cfg - gWheelMoment :=
      rfl
    linarith [h2]
  have hcog : gActualCog base cfg (gf1 base cfg) (gf2 base cfg) = TARGET_COG := by
    rw [gActualCog, hmom, hwt]
    norm_num [TARGET_COG, TARGET_WEIGHT]
  refine ⟨hsolve, ?_, ?_⟩
  · rw [hwt]
    norm_num
  · rw [hcog]
    norm_num

lemma designGDet_lb_cfg0 : (1e-10 : ℚ) ≤ |designGDet ⟨2, 3, 5, 6⟩| := by
  have hfront : gFrontCav ⟨2, 3, 5, 6⟩ = analyzeThroughCut 2 3 CAR.width := rfl
  have hrear : gRearCav ⟨2, 3, 5, 6⟩ = analyzeThroughCut 5 6 CAR.width := rfl
  have hv1 : (7/80 : ℚ) * (3 - 2) ≤ (analyzeThroughCut 2 3 CAR.width).cavVol :=
    throughCut_vol_lb 2 3 (by norm_num)
  have hv2 : (7/80 : ℚ) * (6 - 5) ≤ (analyzeThroughCut 5 6 CAR.width).cavVol :=
    throughCut_vol_lb 5 6 (by norm_num)
  have hc1 : (analyzeThroughCut 2 3 CAR.width).cavCogX ≤ 3 :=
    (throughCut_cog_mem 2 3 (by norm_num)).2
  have hc2 : (5 : ℚ) ≤ (analyzeThroughCut 5 6 CAR.width).cavCogX :=
    (throughCut_cog_mem 5 6 (by norm_num)).1
  have hP1 : (77/80 : ℚ) ≤ gP1 ⟨2, 3, 5, 6⟩ := by
    rw [gP1, hfront]
    have hpd : PUTTY_DENSITY = 11 := rfl
    rw [hpd]
    nlinarith
  have hP2 : (77/80 : ℚ) ≤ gP2 ⟨2, 3, 5, 6⟩ := by
    rw [gP2, hrear]
    have hpd : PUTTY_DENSITY = 11 := rfl
    rw [hpd]
    nlinarith
  have hgap : (2 : ℚ) ≤
      (gRearCav ⟨2, 3, 5, 6⟩).cavCogX - (gFrontCav ⟨2, 3, 5, 6⟩).cavCogX := by
    rw [hfront, hrear]
    linarith
  have hdet : (2 : ℚ) * (77/80) * (77/80) ≤ designGDet ⟨2, 3, 5, 6⟩ := by
    rw [designGDet_factor]
    have hPP : (77/80 : ℚ) * (77/80) ≤ gP1 ⟨2, 3, 5, 6⟩ * gP2 ⟨2, 3, 5, 6⟩ := by
      nlinarith
    nlinarith
  have habs : designGDet ⟨2, 3, 5, 6⟩ ≤ |designGDet ⟨2, 3, 5, 6⟩| := le_abs_self _
  have : (1e-10 : ℚ) ≤ 2 * (77/80) * (77/80) := by norm_num
  linarith

/-- Witness for C1 at the configuration [2, 3] and [5, 6] with base weight 3. -/
theorem designG_differential_fill_witness :
    (1e-10 : ℚ) ≤ |designGDet ⟨2, 3, 5, 6⟩| ∧
      designGSolve 3 ⟨2, 3, 5, 6⟩ = some (gf1 3 ⟨2, 3, 5, 6⟩, gf2 3 ⟨2, 3, 5, 6⟩) ∧
      |gTotalWt 3 ⟨2, 3, 5, 6⟩ (gf1 3 ⟨2, 3, 5, 6⟩) (gf2 3 ⟨2, 3, 5, 6⟩) - TARGET_WEIGHT| ≤
        1e-9 ∧
      |gActualCog 3 ⟨2, 3, 5, 6⟩ (gf1 3 ⟨2, 3, 5, 6⟩) (gf2 3 ⟨2, 3, 5, 6⟩) - TARGET_COG| ≤
        1e-9 := by
  have h := designG_differential_fill 3 ⟨2, 3, 5, 6⟩ designGDet_lb_cfg0
  exact ⟨designGDet_lb_cfg0, h.1, h.2.1, h.2.2⟩

/-- C2: two cavities with identical centroids force the designG determinant
to 0, below the 1e-10 singularity threshold, so the configuration is skipped
(designGSolve returns none) and no division by the near-zero determinant is
performed. -/
theorem designG_identical_centroids_skip (base : ℚ) (cfg : GConfig)
    (hc : (gFrontCav cfg).cavCogX = (gRearCav cfg).cavCogX) :
    |designGDet cfg| < 1e-10 ∧ designGSolve base cfg = none := by
  have hdet : designGDet cfg = 0 := by
    rw [designGDet_factor, hc]
    ring
  constructor
  · rw [hdet]
    norm_num
  · rw [designGSolve, if_pos]
    rw [hdet]
    norm_num

/-- Witness for C2: the configuration using the same span [2, 3] for both
cavities has identical centroids and is skipped. -/
theorem designG_identical_centroids_skip_witness :
    (gFrontCav ⟨2, 3, 2, 3⟩).cavCogX = (gRearCav ⟨2, 3, 2, 3⟩).cavCogX ∧
      |designGDet ⟨2, 3, 2, 3⟩| < 1e-10 ∧ designGSolve 3 ⟨2, 3, 2, 3⟩ = none := by
  have h := designG_identical_centroids_skip 3 ⟨2, 3, 2, 3⟩ rfl
  exact ⟨rfl, h.1, h.2⟩

lemma profileHeight_abs_lip (u v : ℚ) :
    |profileHeight u - profileHeight v| ≤ (4/35) * |u - v| := by
  rcases le_total u v with h | h
  · obtain ⟨h1, h2⟩ := profileHeight_mono_lip u v h
    rw [abs_sub_comm, abs_of_nonneg h1, abs_sub_comm u v, abs_of_nonneg (by linarith : (0:ℚ) ≤ v - u)]
    linarith
  · obtain ⟨h1, h2⟩ := profileHeight_mono_lip v u h
    rw [abs_of_nonneg h1, abs_of_nonneg (by linarith : (0:ℚ) ≤ u - v)]
    linarith

lemma fullwidth_abs_lip (u v : ℚ) :
    |profileHeight u * CAR.width - profileHeight v * CAR.width| ≤ |u - v| := by
  have h := profileHeight_abs_lip u v
  have heq : profileHeight u * CAR.width - profileHeight v * CAR.width =
      (profileHeight u - profileHeight v) * (7/4) := by
    have hw : CAR.width = 7/4 := rfl
    rw [hw]
    ring
  rw [heq, abs_mul]
  have h74 : |(7/4 : ℚ)| = 7/4 := by norm_num
  rw [h74]
  have habs : (0 : ℚ) ≤ |u - v| := abs_nonneg _
  nlinarith

lemma loopSum_bounds (f : ℚ → ℚ) (M a h : ℚ) (hf0 : ∀ x, 0 ≤ f x) (hfM : ∀ x, f x ≤ M) :
    ∀ m : ℕ, 0 ≤ loopSum f a h m ∧ loopSum f a h m ≤ 4 * m * M := by
  intro m
  induction m with
  | zero => simp [loopSum]
  | succ m ih =>
    rw [loopSum]
    have hM : 0 ≤ M := le_trans (hf0 a) (hfM a)
    have hw1 : (0:ℚ) ≤ (if (m+1) % 2 = 0 then (2:ℚ) else 4) := by split <;> norm_num
    have hw2 : (if (m+1) % 2 = 0 then (2:ℚ) else 4) ≤ 4 := by split <;> norm_num
    have hterm0 : 0 ≤ (if (m+1) % 2 = 0 then (2:ℚ) else 4) * f (a + ((m + 1 : ℕ) : ℚ) * h) :=
      mul_nonneg hw1 (hf0 _)
    have htermM : (if (m+1) % 2 = 0 then (2:ℚ) else 4) * f (a + ((m + 1 : ℕ) : ℚ) * h) ≤
        4 * M := by
      have := hf0 (a + ((m + 1 : ℕ) : ℚ) * h)
      have := hfM (a + ((m + 1 : ℕ) : ℚ) * h)
      nlinarith
    constructor
    · linarith [ih.1]
    · have hstep : loopSum f a h m +
          (if (m+1) % 2 = 0 then (2:ℚ) else 4) * f (a + ((m + 1 : ℕ) : ℚ) * h) ≤
          4 * (m:ℚ) * M + 4 * M := by linarith [ih.2]
      have hfinal : 4 * (m:ℚ) * M + 4 * M = 4 * ((m + 1 : ℕ) : ℚ) * M := by push_cast; ring
      linarith

lemma loopSum_abs_diff (f : ℚ → ℚ) (hf : ∀ u v, |f u - f v| ≤ |u - v|) (a h1 h2 : ℚ) :
    ∀ m : ℕ, |loopSum f a h2 m - loopSum f a h1 m| ≤ 4 * m * m * |h2 - h1| := by
  intro m
  induction m with
  | zero => simp [loopSum]
  | succ m ih =>
    rw [loopSum, loopSum]
    have hw1 : (0:ℚ) ≤ (if (m+1) % 2 = 0 then (2:ℚ) else 4) := by split <;> norm_num
    have hw2 : (if (m+1) % 2 = 0 then (2:ℚ) else 4) ≤ 4 := by split <;> norm_num
    have hterm : |f (a + ((m + 1 : ℕ) : ℚ) * h2) - f (a + ((m + 1 : ℕ) : ℚ) * h1)| ≤
        ((m : ℚ) + 1) * |h2 - h1| := by
      have h := hf (a + ((m + 1 : ℕ) : ℚ) * h2) (a + ((m + 1 : ℕ) : ℚ) * h1)
      have heq : (a + ((m + 1 : ℕ) : ℚ) * h2) - (a + ((m + 1 : ℕ) : ℚ) * h1) =
          ((m + 1 : ℕ) : ℚ) * (h2 - h1) := by ring
      have hc : |((m + 1 : ℕ) : ℚ)| = ((m + 1 : ℕ) : ℚ) := abs_of_nonneg (Nat.cast_nonneg _)
      rw [heq, abs_mul, hc] at h
      calc |f (a + ((m + 1 : ℕ) : ℚ) * h2) - f (a + ((m + 1 : ℕ) : ℚ) * h1)| ≤
          ((m + 1 : ℕ) : ℚ) * |h2 - h1| := h
      _ = ((m : ℚ) + 1) * |h2 - h1| := by push_cast; ring
    set w := (if (m+1) % 2 = 0 then (2:ℚ) else 4) with hwdef
    have habs : |loopSum f a h2 m + w * f (a + ((m + 1 : ℕ) : ℚ) * h2) -
        (loopSum f a h1 m + w * f (a + ((m + 1 : ℕ) : ℚ) * h1))| ≤
        |loopSum f a h2 m - loopSum f a h1 m| +
          w * |f (a + ((m + 1 : ℕ) : ℚ) * h2) - f (a + ((m + 1 : ℕ) : ℚ) * h1)| := by
      have heq : loopSum f a h2 m + w * f (a + ((m + 1 : ℕ) : ℚ) * h2) -
          (loopSum f a h1 m + w * f (a + ((m + 1 : ℕ) : ℚ) * h1)) =
          (loopSum f a h2 m - loopSum f a h1 m) +
            w * (f (a + ((m + 1 : ℕ) : ℚ) * h2) - f (a + ((m + 1 : ℕ) : ℚ) * h1)) := by ring
      rw [heq]
      calc |(loopSum f a h2 m - loopSum f a h1 m) +
          w * (f (a + ((m + 1 : ℕ) : ℚ) * h2) - f (a + ((m + 1 : ℕ) : ℚ) * h1))| ≤
          |loopSum f a h2 m - loopSum f a h1 m| +
            |w * (f (a + ((m + 1 : ℕ) : ℚ) * h2) - f (a + ((m + 1 : ℕ) : ℚ) * h1))| :=
        abs_add _ _
      _ = |loopSum f a h2 m - loopSum f a h1 m| +
            w * |f (a + ((m + 1 : ℕ) : ℚ) * h2) - f (a + ((m + 1 : ℕ) : ℚ) * h1)| := by
        rw [abs_mul, abs_of_nonneg hw1]
    have hd0 : (0:ℚ) ≤ |h2 - h1| := abs_nonneg _
    have hf0 : (0:ℚ) ≤ |f (a + ((m + 1 : ℕ) : ℚ) * h2) - f (a + ((m + 1 : ℕ) : ℚ) * h1)| :=
      abs_nonneg _
    have hwterm : w * |f (a + ((m + 1 : ℕ) : ℚ) * h2) - f (a + ((m + 1 : ℕ) : ℚ) * h1)| ≤
        4 * (((m : ℚ) + 1) * |h2 - h1|) := by nlinarith
    calc |loopSum f a h2 m + w * f (a + ((m + 1 : ℕ) : ℚ) * h2) -
        (loopSum f a h1 m + w * f (a + ((m + 1 : ℕ) : ℚ) * h1))| ≤
        |loopSum f a h2 m - loopSum f a h1 m| +
          w * |f (a + ((m + 1 : ℕ) : ℚ) * h2) - f (a + ((m + 1 : ℕ) : ℚ) * h1)| := habs
    _ ≤ 4 * m * m * |h2 - h1| + 4 * (((m : ℚ) + 1) * |h2 - h1|) := by
        have := ih
        linarith [hwterm, ih]
    _ ≤ 4 * ((m:ℚ) + 1) * ((m:ℚ) + 1) * |h2 - h1| := by nlinarith [Nat.cast_nonneg (α := ℚ) m]
    _ = 4 * ((m + 1 : ℕ) : ℚ) * ((m + 1 : ℕ) : ℚ) * |h2 - h1| := by push_cast; ring

lemma cavVolTo_lb (a b : ℚ) (hab : a ≤ b) : (7/80) * (b - a) ≤ cavVolTo a b :=
  const_le_integrate _ a b _ 1000 hab (by norm_num) (fun x h1 h2 => fullwidth_integrand_lb x)

lemma cavVolTo_ub (a b : ℚ) (hab : a ≤ b) : cavVolTo a b ≤ (77/80) * (b - a) :=
  integrate_le_const _ a b _ 1000 hab (by norm_num) (fun x h1 h2 => fullwidth_integrand_ub x)

lemma cavVolTo_unfold (xS b : ℚ) (h : xS < b) :
    cavVolTo xS b =
      (profileHeight xS * CAR.width + profileHeight b * CAR.width +
        loopSum (fun x => profileHeight x * CAR.width) xS ((b - xS) / 1000) 999) *
        ((b - xS) / 1000) / 3 := by
  rw [cavVolTo, integrate, if_neg (not_le.mpr h)]
  norm_num

lemma cavVolTo_lip (xS b1 b2 : ℚ) (h1 : xS + 1/1000 ≤ b1) (h12 : b1 ≤ b2)
    (h2 : b2 ≤ xS + 7) :
    |cavVolTo xS b2 - cavVolTo xS b1| ≤ 11 * (b2 - b1) := by
  have hb1 : xS < b1 := by linarith
  have hb2 : xS < b2 := by linarith
  rw [cavVolTo_unfold xS b1 hb1, cavVolTo_unfold xS b2 hb2]
  set f : ℚ → ℚ := fun x => profileHeight x * CAR.width with hfdef
  have hfl : ∀ x, 0 ≤ f x := by
    intro x
    have := fullwidth_integrand_lb x
    simp only [hfdef]
    linarith
  have hfu : ∀ x, f x ≤ 77/80 := by
    intro x
    have := fullwidth_integrand_ub x
    simp only [hfdef]
    linarith
  set q1 : ℚ := (b1 - xS) / 1000 with hq1
  set q2 : ℚ := (b2 - xS) / 1000 with hq2
  set L1 : ℚ := loopSum f xS q1 999 with hL1
  set L2 : ℚ := loopSum f xS q2 999 with hL2
  have hL2b := loopSum_bounds f (77/80) xS q2 hfl hfu 999
  have hL1b := loopSum_bounds f (77/80) xS q1 hfl hfu 999
  have hLdiff : |L2 - L1| ≤ 4 * 999 * 999 * |q2 - q1| := by
    have h := loopSum_abs_diff f (fun u v => fullwidth_abs_lip u v) xS q1 q2 999
    calc |L2 - L1| ≤ 4 * (999 : ℕ) * (999 : ℕ) * |q2 - q1| := h
    _ = 4 * 999 * 999 * |q2 - q1| := by norm_num
  set S1 : ℚ := f xS + f b1 + L1 with hS1
  set S2 : ℚ := f xS + f b2 + L2 with hS2
  have hS2b : 0 ≤ S2 ∧ S2 ≤ 3849 := by
    have := hfl xS
    have := hfu xS
    have := hfl b2
    have := hfu b2
    constructor <;> [linarith [hL2b.1]; nlinarith [hL2b.2]]
  have hSdiff : |S2 - S1| ≤ |f b2 - f b1| + |L2 - L1| := by
    have heq : S2 - S1 = (f b2 - f b1) + (L2 - L1) := by rw [hS1, hS2]; ring
    rw [heq]
    exact abs_add _ _
  have hfb : |f b2 - f b1| ≤ b2 - b1 := by
    have h := fullwidth_abs_lip b2 b1
    have habs : |b2 - b1| = b2 - b1 := abs_of_nonneg (by linarith)
    simp only [hfdef] at h ⊢
    rw [habs] at h
    exact h
  have hqd : q2 - q1 = (b2 - b1) / 1000 := by rw [hq1, hq2]; ring
  have hqdabs : |q2 - q1| = (b2 - b1) / 1000 := by
    rw [hqd]
    exact abs_of_nonneg (by linarith)
  have hq1b : 0 ≤ q1 ∧ q1 ≤ 7/1000 := by
    constructor <;> rw [hq1] <;> [linarith; linarith]
  have hSd2 : |S2 - S1| ≤ (b2 - b1) + 4 * 999 * 999 * ((b2 - b1) / 1000) := by
    rw [hqdabs] at hLdiff
    linarith
  have hgoaleq : (f xS + f b2 + L2) * q2 / 3 - (f xS + f b1 + L1) * q1 / 3 =
      (S2 * (q2 - q1) + (S2 - S1) * q1) / 3 := by
    rw [hS1, hS2]
    ring
  rw [hgoaleq, abs_div]
  have h3 : |(3:ℚ)| = 3 := by norm_num
  rw [h3]
  have hnum : |S2 * (q2 - q1) + (S2 - S1) * q1| ≤
      3849 * ((b2 - b1) / 1000) + ((b2 - b1) + 4 * 999 * 999 * ((b2 - b1) / 1000)) * (7/1000) := by
    calc |S2 * (q2 - q1) + (S2 - S1) * q1| ≤ |S2 * (q2 - q1)| + |(S2 - S1) * q1| := abs_add _ _
    _ = |S2| * |q2 - q1| + |S2 - S1| * |q1| := by rw [abs_mul, abs_mul]
    _ ≤ 3849 * ((b2 - b1) / 1000) +
          ((b2 - b1) + 4 * 999 * 999 * ((b2 - b1) / 1000)) * (7/1000) := by
        have ha1 : |S2| ≤ 3849 := by
          rw [abs_of_nonneg hS2b.1]
          exact hS2b.2
        have ha2 : |q1| ≤ 7/1000 := by
          rw [abs_of_nonneg hq1b.1]
          exact hq1b.2
        have hm1 : |S2| * |q2 - q1| ≤ 3849 * ((b2 - b1) / 1000) := by
          rw [hqdabs]
          exact mul_le_mul_of_nonneg_right ha1 (div_nonneg (by linarith) (by norm_num))
        have hm2 : |S2 - S1| * |q1| ≤
            ((b2 - b1) + 4 * 999 * 999 * ((b2 - b1) / 1000)) * (7/1000) := by
          apply mul_le_mul hSd2 ha2 (abs_nonneg _)
          have : (0:ℚ) ≤ |S2 - S1| := abs_nonneg _
          linarith
        linarith
  have hfinal : (3849 * ((b2 - b1) / 1000) +
      ((b2 - b1) + 4 * 999 * 999 * ((b2 - b1) / 1000)) * (7/1000)) / 3 ≤ 11 * (b2 - b1) := by
    ring_nf
    linarith
  calc |S2 * (q2 - q1) + (S2 - S1) * q1| / 3 ≤
      (3849 * ((b2 - b1) / 1000) +
        ((b2 - b1) + 4 * 999 * 999 * ((b2 - b1) / 1000)) * (7/1000)) / 3 := by linarith
  _ ≤ 11 * (b2 - b1) := hfinal

lemma bisectLoop_spec (xS needed : ℚ) : ∀ (k : ℕ) (lo hi : ℚ), lo ≤ hi →
    cavVolTo xS lo < needed → needed ≤ cavVolTo xS hi →
    lo ≤ (bisectLoop xS needed k lo hi).1 ∧
      (bisectLoop xS needed k lo hi).1 ≤ (bisectLoop xS needed k lo hi).2 ∧
      (bisectLoop xS needed k lo hi).2 ≤ hi ∧
      cavVolTo xS (bisectLoop xS needed k lo hi).1 < needed ∧
      needed ≤ cavVolTo xS (bisectLoop xS needed k lo hi).2 ∧
      ((bisectLoop xS needed k lo hi).2 - (bisectLoop xS needed k lo hi).1) * 2 ^ k =
        hi - lo := by
  intro k
  induction k with
  | zero =>
    intro lo hi hle hlo hhi
    simp only [bisectLoop]
    exact ⟨le_rfl, hle, le_rfl, hlo, hhi, by ring⟩
  | succ k ih =>
    intro lo hi hle hlo hhi
    rw [bisectLoop]
    by_cases hmid : cavVolTo xS ((lo + hi) / 2) < needed
    · rw [if_pos hmid]
      have hmle : (lo + hi) / 2 ≤ hi := by linarith
      obtain ⟨i1, i2, i3, i4, i5, i6⟩ := ih ((lo + hi) / 2) hi hmle hmid hhi
      refine ⟨by linarith, i2, i3, i4, i5, ?_⟩
      have : ((bisectLoop xS needed k ((lo + hi) / 2) hi).2 -
          (bisectLoop xS needed k ((lo + hi) / 2) hi).1) * 2 ^ k = hi - (lo + hi) / 2 := i6
      have hp : (2:ℚ) ^ (k + 1) = 2 ^ k * 2 := by ring
      rw [hp]
      nlinarith [this]
    · rw [if_neg hmid]
      push_neg at hmid
      have hmle : lo ≤ (lo + hi) / 2 := by linarith
      obtain ⟨i1, i2, i3, i4, i5, i6⟩ := ih lo ((lo + hi) / 2) hmle hlo hmid
      refine ⟨i1, i2, by linarith, i4, i5, ?_⟩
      have hp : (2:ℚ) ^ (k + 1) = 2 ^ k * 2 := by ring
      rw [hp]
      nlinarith [i6]

/-- C7: for a start xS in a region of span at most 7 whose maximum attainable
volume reaches neededVol (and neededVol at least the 0.001-inch sliver volume
floor), the 100-iteration bisection returns an end boundary whose
re-integrated volume matches neededVol to within 1e-4. -/
theorem designH_bisection_accuracy (xS regionEnd neededVol : ℚ)
    (hreg : xS + 1/1000 ≤ regionEnd) (hspan : regionEnd ≤ xS + 7)
    (hvol : 1/1000 ≤ neededVol) (hmax : neededVol ≤ cavVolTo xS regionEnd) :
    |cavVolTo xS (designH_endpoint xS regionEnd neededVol) - neededVol| ≤ 1e-4 := by
  have hlo0 : cavVolTo xS (xS + 1/1000) < neededVol := by
    have hub := cavVolTo_ub xS (xS + 1/1000) (by linarith)
    have : (77/80 : ℚ) * (xS + 1/1000 - xS) = 77/80000 := by ring
    rw [this] at hub
    linarith
  obtain ⟨i1, i2, i3, i4, i5, i6⟩ :=
    bisectLoop_spec xS neededVol 100 (xS + 1/1000) regionEnd hreg hlo0 hmax
  set p := bisectLoop xS neededVol 100 (xS + 1/1000) regionEnd with hp
  have hE : designH_endpoint xS regionEnd neededVol = (p.1 + p.2) / 2 := rfl
  rw [hE]
  have hwidth : p.2 - p.1 = (regionEnd - (xS + 1/1000)) / 2 ^ 100 := by
    have h2p : (0:ℚ) < 2 ^ 100 := by positivity
    field_simp
    linarith [i6]
  have hwsmall : p.2 - p.1 ≤ 7 / 2 ^ 100 := by
    rw [hwidth]
    gcongr
    linarith
  have hm1 : p.1 ≤ (p.1 + p.2) / 2 := by linarith
  have hm2 : (p.1 + p.2) / 2 ≤ p.2 := by linarith
  have hlip1 : |cavVolTo xS ((p.1 + p.2) / 2) - cavVolTo xS p.1| ≤
      11 * ((p.1 + p.2) / 2 - p.1) := by
    apply cavVolTo_lip xS p.1 ((p.1 + p.2) / 2) i1 hm1
    linarith
  have hlip2 : |cavVolTo xS p.2 - cavVolTo xS ((p.1 + p.2) / 2)| ≤
      11 * (p.2 - (p.1 + p.2) / 2) := by
    apply cavVolTo_lip xS ((p.1 + p.2) / 2) p.2 (by linarith) hm2
    linarith
  have habs1 := abs_le.mp hlip1
  have habs2 := abs_le.mp hlip2
  have hup : cavVolTo xS ((p.1 + p.2) / 2) - neededVol ≤ 77 / 2 ^ 101 := by
    have : cavVolTo xS ((p.1 + p.2) / 2) - cavVolTo xS p.1 ≤ 11 * ((p.1 + p.2) / 2 - p.1) :=
      habs1.2
    have hmid : (p.1 + p.2) / 2 - p.1 = (p.2 - p.1) / 2 := by ring
    have hq : (11:ℚ) * ((p.2 - p.1) / 2) ≤ 11 * (7 / 2 ^ 100) / 2 := by linarith
    have h77 : (11:ℚ) * (7 / 2 ^ 100) / 2 = 77 / 2 ^ 101 := by ring
    rw [hmid] at this
    linarith
  have hdown : neededVol - cavVolTo xS ((p.1 + p.2) / 2) ≤ 77 / 2 ^ 101 := by
    have : cavVolTo xS p.2 - cavVolTo xS ((p.1 + p.2) / 2) ≤ 11 * (p.2 - (p.1 + p.2) / 2) :=
      habs2.2
    have hmid : p.2 - (p.1 + p.2) / 2 = (p.2 - p.1) / 2 := by ring
    have hq : (11:ℚ) * ((p.2 - p.1) / 2) ≤ 11 * (7 / 2 ^ 100) / 2 := by linarith
    have h77 : (11:ℚ) * (7 / 2 ^ 100) / 2 = 77 / 2 ^ 101 := by ring
    rw [hmid] at this
    linarith
  have hsmall : (77 : ℚ) / 2 ^ 101 ≤ 1e-4 := by norm_num
  rw [abs_le]
  constructor <;> linarith

/-- Witness for C7 at xS = 2, region end 5.75, needed volume 0.2. -/
theorem designH_bisection_accuracy_witness :
    (2 : ℚ) + 1/1000 ≤ 23/4 ∧ (23/4 : ℚ) ≤ 2 + 7 ∧ (1/1000 : ℚ) ≤ 1/5 ∧
      (1/5 : ℚ) ≤ cavVolTo 2 (23/4) ∧
      |cavVolTo 2 (designH_endpoint 2 (23/4) (1/5)) - 1/5| ≤ 1e-4 := by
  have hmax : (1/5 : ℚ) ≤ cavVolTo 2 (23/4) := by
    have h := cavVolTo_lb 2 (23/4) (by norm_num)
    norm_num at h
    linarith
  exact ⟨by norm_num, by norm_num, by norm_num, hmax,
    designH_bisection_accuracy 2 (23/4) (1/5) (by norm_num) (by norm_num) (by norm_num) hmax⟩
